import Mathlib

/-!
# Verification of the WebM-to-MP4 batch converter (`src/converter.js`)

Shallow embedding of the `WebMToMP4Converter` class.  The external
collaborators (the ffmpeg engine, the filesystem, the console) are modelled
as an explicit `World` of outcomes; the observable effects of a run are
collected in an `Event` trace.  Console output is not modelled: it carries
no data the claims depend on.
-/

/-- Index of the last `'.'` in a character list (`none` when there is no
dot).  Helper for the model of Node's `path.extname`. -/
def lastDotIdx : List Char → Option Nat
  | [] => none
  | c :: cs =>
    match lastDotIdx cs with
    | some j => some (j + 1)
    | none => if c = '.' then some 0 else none

/-- Model of Node.js `path.extname`, restricted to slash-free names (the
only inputs the program feeds it: `fs.readdir` entries contain no path
separator).  Node returns the substring starting at the final dot, except
that a name with no dot, a dotfile whose only dot is the leading character
(e.g. `".webm"`), or the name `".."` have extension `""`. -/
def extname (s : String) : String :=
  match lastDotIdx s.data with
  | none => ""
  | some d => if d = 0 ∨ s = ".." then "" else ⟨s.data.drop d⟩

/-- Model of Node.js `path.parse(s).name` for slash-free names: the name
with its `extname` suffix removed. -/
def parseName (s : String) : String :=
  match lastDotIdx s.data with
  | none => s
  | some d => if d = 0 ∨ s = ".." then s else ⟨s.data.take d⟩

/-- Model of Node.js `path.join` for the shapes the program uses (a
directory prefix joined with a plain file name). -/
def pathJoin (dir file : String) : String := dir ++ "/" ++ file

/-- Model of JavaScript `String.prototype.toLowerCase()` (the names in play
are ASCII, where it agrees with per-character lowercasing). -/
def toLowerStr (s : String) : String := ⟨s.data.map Char.toLower⟩

/-- The converter's configuration, set once in the constructor
(`converter.js` lines 6–10). -/
structure WebMToMP4Converter where
  inputDir : String := "./input"
  outputDir : String := "./output"
  supportedFormats : List String := [".webm", ".mkv", ".avi", ".mov", ".flv"]

/-- The converter as constructed by `new WebMToMP4Converter()`. -/
def defaultConverter : WebMToMP4Converter := {}

/-- One entry of the input directory listing.  `fs.readdir` (without
`withFileTypes`) yields only the `name`; `isDir` records whether the entry
is a subdirectory, information the program never consults. -/
structure DirEntry where
  name : String
  isDir : Bool
deriving DecidableEq, Repr

/-- What the engine does when invoked on one input file. -/
inductive EngineOutcome where
  | success
  | failure (msg : String)
deriving DecidableEq, Repr

/-- Outcomes of the external collaborators for one run: the availability
probe, directory creation, the input-directory listing, and the per-file
engine result. -/
structure World where
  probeOk : Bool
  mkdirResult : String → Except String Unit
  listing : Except String (List DirEntry)
  engine : String → EngineOutcome

/-- Observable external effects of a run. -/
inductive Event where
  | probe
  | ensureDir (dir : String)
  | readdir (dir : String)
  | engineInvoke (file : String)
deriving DecidableEq, Repr

/-- A recorded success: `results.success.push({ input, output })`. -/
structure SuccessRecord where
  input : String
  output : String
deriving DecidableEq, Repr

/-- A recorded failure: `results.failed.push({ input, error })`. -/
structure FailureRecord where
  input : String
  error : String
deriving DecidableEq, Repr

/-- The `results` accumulator of `convertAll` (lines 106–109). -/
structure Results where
  success : List SuccessRecord
  failed : List FailureRecord
deriving DecidableEq, Repr

namespace WebMToMP4Converter

/-- `checkFFmpeg` (lines 13–26): queries the engine's codec list and
resolves `false` on error, `true` otherwise.  The query itself is the only
effect. -/
def checkFFmpeg (w : World) : Bool × List Event :=
  (w.probeOk, [Event.probe])

/-- `createDirectories` (lines 29–37): `ensureDir` on the input directory,
then on the output directory; a thrown error skips the rest of the `try`
block and is swallowed by the `catch` (logged, never rethrown). -/
def createDirectories (c : WebMToMP4Converter) (w : World) : List Event :=
  Event.ensureDir c.inputDir ::
    (match w.mkdirResult c.inputDir with
     | .ok _ =>
       Event.ensureDir c.outputDir ::
         (match w.mkdirResult c.outputDir with
          | .ok _ => []
          | .error _ => [])
     | .error _ => [])

/-- The pure filter of `getInputFiles` (lines 42–46): keep the listed names
whose lower-cased `extname` is in `supportedFormats`; a failed `readdir` is
caught and yields `[]` (lines 47–50). -/
def getInputFilesList (c : WebMToMP4Converter)
    (listing : Except String (List DirEntry)) : List String :=
  match listing with
  | .error _ => []
  | .ok entries =>
    (entries.map DirEntry.name).filter
      (fun file => c.supportedFormats.contains (toLowerStr (extname file)))

/-- `getInputFiles` (lines 40–51) with its `readdir` effect. -/
def getInputFiles (c : WebMToMP4Converter) (w : World) :
    List String × List Event :=
  (getInputFilesList c w.listing, [Event.readdir c.inputDir])

/-- The output file name derived by `convertFile` (line 56):
`path.parse(inputFile).name + '.mp4'`. -/
def outputFileName (inputFile : String) : String :=
  parseName inputFile ++ ".mp4"

/-- The output path derived by `convertFile` (line 57):
`path.join(this.outputDir, outputFileName)`. -/
def convertFileOutputPath (c : WebMToMP4Converter) (inputFile : String) :
    String :=
  pathJoin c.outputDir (outputFileName inputFile)

/-- `convertFile` (lines 54–89): one engine invocation; resolves with the
output path on `end`, rejects with the engine's message on `error`. -/
def convertFile (c : WebMToMP4Converter) (engine : String → EngineOutcome)
    (inputFile : String) : Except String String :=
  match engine inputFile with
  | .success => .ok (convertFileOutputPath c inputFile)
  | .failure msg => .error msg

/-- The `for (const file of files)` loop of `convertAll` (lines 111–118):
each file is converted with `await` (fully, before the next begins); a
success appends to `results.success`, a caught rejection appends to
`results.failed`, and the loop continues either way. -/
def convertAllLoop (c : WebMToMP4Converter) (engine : String → EngineOutcome) :
    List String → Results → Results × List Event
  | [], r => (r, [])
  | f :: fs, r =>
    let r' :=
      match convertFile c engine f with
      | .ok out => { r with success := r.success ++ [⟨f, out⟩] }
      | .error e => { r with failed := r.failed ++ [⟨f, e⟩] }
    let rest := convertAllLoop c engine fs r'
    (rest.1, Event.engineInvoke f :: rest.2)

/-- `convertAll` (lines 92–131): enumerate inputs; if none, report and
return early with no work done; otherwise run the sequential loop and
return the accumulated results. -/
def convertAll (c : WebMToMP4Converter) (w : World) : Results × List Event :=
  let enum := getInputFiles c w
  if enum.1.length = 0 then
    (⟨[], []⟩, enum.2)
  else
    let res := convertAllLoop c w.engine enum.1 ⟨[], []⟩
    (res.1, enum.2 ++ res.2)

/-- `run` (lines 134–149): probe the engine; on failure return at once;
otherwise create the directories and convert everything. -/
def run (c : WebMToMP4Converter) (w : World) : Option Results × List Event :=
  let probe := checkFFmpeg w
  if probe.1 then
    let ev1 := createDirectories c w
    let res := convertAll c w
    (some res.1, probe.2 ++ ev1 ++ res.2)
  else
    (none, probe.2)

end WebMToMP4Converter

/-- Spec-side predicate (§4.1 / §8 of the spec): the entry's extension,
case-insensitively, is a member of the recognized set
`{.webm, .mkv, .avi, .mov, .flv}`. -/
def recognizedExtSpec (file : String) : Bool :=
  [".webm", ".mkv", ".avi", ".mov", ".flv"].contains (toLowerStr (extname file))

/-- Whether the engine succeeds on a file. -/
def engineSucceeds (engine : String → EngineOutcome) (file : String) : Bool :=
  match engine file with
  | .success => true
  | .failure _ => false

/-! ## Helper lemmas -/

lemma lastDotIdx_append_of_some (xs ys : List Char) (j : Nat)
    (h : lastDotIdx ys = some j) :
    lastDotIdx (xs ++ ys) = some (xs.length + j) := by
  induction xs with
  | nil => simpa using h
  | cons c cs ih =>
    have hunf : lastDotIdx (c :: (cs ++ ys)) =
        match lastDotIdx (cs ++ ys) with
        | some j => some (j + 1)
        | none => if c = '.' then some 0 else none := rfl
    rw [List.cons_append, hunf, ih]
    simp only [Option.some.injEq, List.length_cons]
    omega

lemma String_data_ne_nil_of_ne_empty {s : String} (h : s ≠ "") : s.data ≠ [] := by
  intro hd
  exact h (String.ext hd)

/-- For a nonempty `base` and an extension string whose only dot is its
leading character (and which is long enough to rule out `".."`), Node's
`extname`/`parse().name` split `base ++ ext` back into `ext` and `base`. -/
lemma extname_parseName_append (base ext : String) (hb : base ≠ "")
    (hd : lastDotIdx ext.data = some 0) (hlen : 4 ≤ ext.data.length) :
    extname (base ++ ext) = ext ∧ parseName (base ++ ext) = base := by
  have hdata : (base ++ ext).data = base.data ++ ext.data := String.data_append base ext
  have hbne : base.data ≠ [] := String_data_ne_nil_of_ne_empty hb
  have hlast : lastDotIdx (base ++ ext).data = some base.data.length := by
    rw [hdata]
    simpa using lastDotIdx_append_of_some base.data ext.data 0 hd
  have hd0 : base.data.length ≠ 0 := by
    intro h
    exact hbne (List.eq_nil_of_length_eq_zero h)
  have hne : base ++ ext ≠ ".." := by
    intro h
    have h2 : (base ++ ext).data.length = 2 := by rw [h]; rfl
    rw [hdata, List.length_append] at h2
    omega
  have hcond : ¬(base.data.length = 0 ∨ base ++ ext = "..") := by
    rintro (h | h)
    · exact hd0 h
    · exact hne h
  constructor
  · simp only [extname, hlast, if_neg hcond]
    rw [hdata, List.drop_left]
  · simp only [parseName, hlast, if_neg hcond]
    rw [hdata, List.take_left]

lemma format_ext_shape (ext : String)
    (hext : ext ∈ defaultConverter.supportedFormats) :
    lastDotIdx ext.data = some 0 ∧ 4 ≤ ext.data.length := by
  have hext' : ext ∈ [".webm", ".mkv", ".avi", ".mov", ".flv"] := hext
  fin_cases hext' <;> exact ⟨by decide, by decide⟩

lemma length_filter_partition {α : Type} (p : α → Bool) (l : List α) :
    (l.filter p).length + (l.filter (fun a => !p a)).length = l.length := by
  induction l with
  | nil => rfl
  | cons x xs ih =>
    cases h : p x <;> simp [List.filter_cons, h] <;> omega

/-! ## Claims -/

/-- **C2.** For every input directory listing, `getInputFiles` keeps exactly
the entries whose extension (case-insensitive) is in the recognized set
`{.webm, .mkv, .avi, .mov, .flv}` (the spec-side predicate
`recognizedExtSpec`): the N recognized names are returned and the M
unrecognized ones are excluded, with N + M the total listing size. -/
theorem getInputFiles_keeps_exactly_recognized (entries : List DirEntry) :
    WebMToMP4Converter.getInputFilesList defaultConverter (Except.ok entries)
      = (entries.map DirEntry.name).filter recognizedExtSpec
    ∧ ((entries.map DirEntry.name).filter recognizedExtSpec).length
        + ((entries.map DirEntry.name).filter (fun f => !recognizedExtSpec f)).length
      = (entries.map DirEntry.name).length :=
  ⟨rfl, length_filter_partition _ _⟩

/-- **C3.** For every nonempty base name and every recognized extension,
`convertFile` derives the output path `<output_dir>/<base>.mp4`,
independently of which recognized extension the input carries. -/
theorem convertFile_outputPath_uniform (base ext : String)
    (hext : ext ∈ defaultConverter.supportedFormats) (hbase : base ≠ "") :
    WebMToMP4Converter.convertFileOutputPath defaultConverter (base ++ ext)
      = pathJoin defaultConverter.outputDir (base ++ ".mp4") := by
  obtain ⟨hd, hlen⟩ := format_ext_shape ext hext
  have hparse : parseName (base ++ ext) = base :=
    (extname_parseName_append base ext hbase hd hlen).2
  simp [WebMToMP4Converter.convertFileOutputPath, WebMToMP4Converter.outputFileName, hparse]

/-- Witness for C3 at `base := "video"`, `ext := ".webm"`. -/
theorem convertFile_outputPath_uniform_witness :
    (".webm" ∈ defaultConverter.supportedFormats) ∧ ("video" : String) ≠ ""
    ∧ WebMToMP4Converter.convertFileOutputPath defaultConverter ("video" ++ ".webm")
        = pathJoin defaultConverter.outputDir ("video" ++ ".mp4") :=
  ⟨by decide, by decide, convertFile_outputPath_uniform "video" ".webm" (by decide) (by decide)⟩

/-- **C10.** For an input name with interior dots (`a ++ "." ++ b ++ ext`,
`ext` recognized), only the final extension is stripped: the output file
name keeps the interior dots and segments. -/
theorem outputFileName_strips_only_final_ext (a b ext : String)
    (hext : ext ∈ defaultConverter.supportedFormats) :
    WebMToMP4Converter.outputFileName (a ++ "." ++ b ++ ext)
      = a ++ "." ++ b ++ ".mp4" := by
  obtain ⟨hd, hlen⟩ := format_ext_shape ext hext
  have hbase : a ++ "." ++ b ≠ "" := by
    intro h
    have h0 : (a ++ "." ++ b).data.length = 0 := by rw [h]; rfl
    have h1 : (("." : String)).data.length = 1 := rfl
    rw [String.data_append, String.data_append, List.length_append, List.length_append] at h0
    omega
  have hparse : parseName (a ++ "." ++ b ++ ext) = a ++ "." ++ b :=
    (extname_parseName_append (a ++ "." ++ b) ext hbase hd hlen).2
  simp [WebMToMP4Converter.outputFileName, hparse]

/-- Witness for C10 at the spec's example `"a.b.webm"`. -/
theorem outputFileName_strips_only_final_ext_witness :
    (".webm" ∈ defaultConverter.supportedFormats)
    ∧ WebMToMP4Converter.outputFileName ("a" ++ "." ++ "b" ++ ".webm")
        = "a" ++ "." ++ "b" ++ ".mp4" :=
  ⟨by decide, outputFileName_strips_only_final_ext "a" "b" ".webm" (by decide)⟩

/-- **C9.** A directory entry whose name is exactly a recognized extension
with no base name (e.g. `".webm"`) is excluded by `getInputFiles`: Node's
extension extraction gives such dotfile names the empty extension, so the
filter is not a pure suffix match. -/
theorem getInputFiles_excludes_bare_extension_names (e : String) (isD : Bool)
    (h : e ∈ defaultConverter.supportedFormats) :
    extname e = ""
    ∧ WebMToMP4Converter.getInputFilesList defaultConverter (Except.ok [⟨e, isD⟩]) = [] := by
  have h' : e ∈ [".webm", ".mkv", ".avi", ".mov", ".flv"] := h
  fin_cases h' <;> exact ⟨by decide, by rfl⟩

/-- Witness for C9 at the entry `".webm"`. -/
theorem getInputFiles_excludes_bare_extension_names_witness :
    (".webm" ∈ defaultConverter.supportedFormats)
    ∧ (extname ".webm" = ""
       ∧ WebMToMP4Converter.getInputFilesList defaultConverter
           (Except.ok [⟨".webm", false⟩]) = []) :=
  ⟨by decide, getInputFiles_excludes_bare_extension_names ".webm" false (by decide)⟩

lemma convertAllLoop_success_inputs (c : WebMToMP4Converter)
    (e : String → EngineOutcome) (fs : List String) (r : Results) :
    ((WebMToMP4Converter.convertAllLoop c e fs r).1.success.map SuccessRecord.input)
      = r.success.map SuccessRecord.input ++ fs.filter (engineSucceeds e) := by
  induction fs generalizing r with
  | nil => simp [WebMToMP4Converter.convertAllLoop]
  | cons f fs ih =>
    cases he : e f <;>
      simp [WebMToMP4Converter.convertAllLoop, WebMToMP4Converter.convertFile, he, ih,
        engineSucceeds, List.filter_cons]

lemma convertAllLoop_failed_inputs (c : WebMToMP4Converter)
    (e : String → EngineOutcome) (fs : List String) (r : Results) :
    ((WebMToMP4Converter.convertAllLoop c e fs r).1.failed.map FailureRecord.input)
      = r.failed.map FailureRecord.input ++ fs.filter (fun f => !engineSucceeds e f) := by
  induction fs generalizing r with
  | nil => simp [WebMToMP4Converter.convertAllLoop]
  | cons f fs ih =>
    cases he : e f <;>
      simp [WebMToMP4Converter.convertAllLoop, WebMToMP4Converter.convertFile, he, ih,
        engineSucceeds, List.filter_cons]

lemma convertAllLoop_lengths (c : WebMToMP4Converter)
    (e : String → EngineOutcome) (fs : List String) (r : Results) :
    (WebMToMP4Converter.convertAllLoop c e fs r).1.success.length
        + (WebMToMP4Converter.convertAllLoop c e fs r).1.failed.length
      = r.success.length + r.failed.length + fs.length := by
  induction fs generalizing r with
  | nil => simp [WebMToMP4Converter.convertAllLoop]
  | cons f fs ih =>
    cases he : e f <;>
      simp [WebMToMP4Converter.convertAllLoop, WebMToMP4Converter.convertFile, he, ih] <;>
      omega

/-- **C1.** For every enumeration and every mix of per-file engine
outcomes, `convertAll` records exactly one result per enumerated file: the
recorded success inputs are precisely the files the engine succeeds on, the
recorded failure inputs are precisely those it fails on (so a failure never
stops processing of the remaining files), and the counts sum to the number
of matched files. -/
theorem convertAll_one_result_per_file (c : WebMToMP4Converter) (w : World) :
    ((WebMToMP4Converter.convertAll c w).1.success.map SuccessRecord.input)
        = (WebMToMP4Converter.getInputFilesList c w.listing).filter (engineSucceeds w.engine)
    ∧ ((WebMToMP4Converter.convertAll c w).1.failed.map FailureRecord.input)
        = (WebMToMP4Converter.getInputFilesList c w.listing).filter
            (fun f => !engineSucceeds w.engine f)
    ∧ (WebMToMP4Converter.convertAll c w).1.success.length
        + (WebMToMP4Converter.convertAll c w).1.failed.length
      = (WebMToMP4Converter.getInputFilesList c w.listing).length := by
  by_cases h : (WebMToMP4Converter.getInputFilesList c w.listing).length = 0
  · have hnil : WebMToMP4Converter.getInputFilesList c w.listing = [] :=
      List.eq_nil_of_length_eq_zero h
    simp [WebMToMP4Converter.convertAll, WebMToMP4Converter.getInputFiles, hnil]
  · refine ⟨?_, ?_, ?_⟩ <;>
      simp [WebMToMP4Converter.convertAll, WebMToMP4Converter.getInputFiles, h,
        convertAllLoop_success_inputs, convertAllLoop_failed_inputs, convertAllLoop_lengths]

/-- **C4.** When the engine-availability probe fails, `run` stops at once:
the whole trace is the single probe event — no directory is created, no
listing is read, no conversion is invoked — and no results are produced. -/
theorem run_stops_on_failed_probe (c : WebMToMP4Converter) (w : World)
    (h : w.probeOk = false) :
    WebMToMP4Converter.run c w = (none, [Event.probe])
    ∧ (∀ d, Event.ensureDir d ∉ (WebMToMP4Converter.run c w).2)
    ∧ (∀ f, Event.engineInvoke f ∉ (WebMToMP4Converter.run c w).2) := by
  refine ⟨?_, ?_, ?_⟩ <;>
    simp [WebMToMP4Converter.run, WebMToMP4Converter.checkFFmpeg, h]

/-- Witness for C4 at a concrete world whose probe fails. -/
theorem run_stops_on_failed_probe_witness :
    ({ probeOk := false, mkdirResult := fun _ => Except.ok (),
       listing := Except.ok [⟨"clip.webm", false⟩],
       engine := fun _ => EngineOutcome.success } : World).probeOk = false
    ∧ (WebMToMP4Converter.run defaultConverter
         { probeOk := false, mkdirResult := fun _ => Except.ok (),
           listing := Except.ok [⟨"clip.webm", false⟩],
           engine := fun _ => EngineOutcome.success } = (none, [Event.probe])
       ∧ (∀ d, Event.ensureDir d ∉ (WebMToMP4Converter.run defaultConverter
            { probeOk := false, mkdirResult := fun _ => Except.ok (),
              listing := Except.ok [⟨"clip.webm", false⟩],
              engine := fun _ => EngineOutcome.success }).2)
       ∧ (∀ f, Event.engineInvoke f ∉ (WebMToMP4Converter.run defaultConverter
            { probeOk := false, mkdirResult := fun _ => Except.ok (),
              listing := Except.ok [⟨"clip.webm", false⟩],
              engine := fun _ => EngineOutcome.success }).2)) :=
  ⟨rfl, run_stops_on_failed_probe defaultConverter _ rfl⟩

/-- **C5.** When the enumeration is empty, `convertAll` returns early with
zero successes, zero failures, and no engine invocation: the only effect is
the directory read. -/
theorem convertAll_empty_enumeration (c : WebMToMP4Converter) (w : World)
    (h : WebMToMP4Converter.getInputFilesList c w.listing = []) :
    WebMToMP4Converter.convertAll c w = (⟨[], []⟩, [Event.readdir c.inputDir])
    ∧ (∀ f, Event.engineInvoke f ∉ (WebMToMP4Converter.convertAll c w).2) := by
  refine ⟨?_, ?_⟩ <;>
    simp [WebMToMP4Converter.convertAll, WebMToMP4Converter.getInputFiles, h]

/-- Witness for C5 at a listing with no matching file. -/
theorem convertAll_empty_enumeration_witness :
    WebMToMP4Converter.getInputFilesList defaultConverter
        (Except.ok [⟨"notes.txt", false⟩]) = []
    ∧ (WebMToMP4Converter.convertAll defaultConverter
         { probeOk := true, mkdirResult := fun _ => Except.ok (),
           listing := Except.ok [⟨"notes.txt", false⟩],
           engine := fun _ => EngineOutcome.success }
         = (⟨[], []⟩, [Event.readdir defaultConverter.inputDir])
       ∧ (∀ f, Event.engineInvoke f ∉ (WebMToMP4Converter.convertAll defaultConverter
            { probeOk := true, mkdirResult := fun _ => Except.ok (),
              listing := Except.ok [⟨"notes.txt", false⟩],
              engine := fun _ => EngineOutcome.success }).2)) :=
  ⟨rfl, convertAll_empty_enumeration defaultConverter _ rfl⟩

/-- **C6.** When reading the input directory fails, `getInputFiles` catches
the error and returns the empty list; nothing is propagated — `convertAll`
on such a world still returns normally with empty results. -/
theorem getInputFiles_error_returns_empty (c : WebMToMP4Converter) (msg : String)
    (pOk : Bool) (mk : String → Except String Unit) (eng : String → EngineOutcome) :
    WebMToMP4Converter.getInputFilesList c (Except.error msg) = []
    ∧ WebMToMP4Converter.convertAll c ⟨pOk, mk, Except.error msg, eng⟩
        = (⟨[], []⟩, [Event.readdir c.inputDir]) := by
  refine ⟨rfl, ?_⟩
  simp [WebMToMP4Converter.convertAll, WebMToMP4Converter.getInputFiles,
    WebMToMP4Converter.getInputFilesList]

/-- **C7.** A directory-creation failure is swallowed by
`createDirectories` (the run's remaining steps still execute): even when
`ensureDir` fails on the input directory, `run` goes on to read the input
directory and to produce conversion results. -/
theorem run_continues_after_mkdir_failure (c : WebMToMP4Converter) (w : World)
    (m : String) (hp : w.probeOk = true)
    (hm : w.mkdirResult c.inputDir = Except.error m) :
    WebMToMP4Converter.createDirectories c w = [Event.ensureDir c.inputDir]
    ∧ (WebMToMP4Converter.run c w).1 = some (WebMToMP4Converter.convertAll c w).1
    ∧ Event.readdir c.inputDir ∈ (WebMToMP4Converter.run c w).2 := by
  refine ⟨?_, ?_, ?_⟩
  · simp [WebMToMP4Converter.createDirectories, hm]
  · simp [WebMToMP4Converter.run, WebMToMP4Converter.checkFFmpeg, hp]
  · have hmem : Event.readdir c.inputDir ∈ (WebMToMP4Converter.convertAll c w).2 := by
      by_cases h : (WebMToMP4Converter.getInputFilesList c w.listing).length = 0 <;>
        simp [WebMToMP4Converter.convertAll, WebMToMP4Converter.getInputFiles, h]
    simp [WebMToMP4Converter.run, WebMToMP4Converter.checkFFmpeg, hp, hmem]

/-- Witness for C7 at a world whose directory creation always fails. -/
theorem run_continues_after_mkdir_failure_witness :
    ({ probeOk := true, mkdirResult := fun _ => Except.error "EACCES",
       listing := Except.ok [⟨"clip.webm", false⟩],
       engine := fun _ => EngineOutcome.success } : World).probeOk = true
    ∧ ({ probeOk := true, mkdirResult := fun _ => Except.error "EACCES",
         listing := Except.ok [⟨"clip.webm", false⟩],
         engine := fun _ => EngineOutcome.success } : World).mkdirResult
          defaultConverter.inputDir = Except.error "EACCES"
    ∧ (WebMToMP4Converter.createDirectories defaultConverter
         { probeOk := true, mkdirResult := fun _ => Except.error "EACCES",
           listing := Except.ok [⟨"clip.webm", false⟩],
           engine := fun _ => EngineOutcome.success }
         = [Event.ensureDir defaultConverter.inputDir]
       ∧ (WebMToMP4Converter.run defaultConverter
            { probeOk := true, mkdirResult := fun _ => Except.error "EACCES",
              listing := Except.ok [⟨"clip.webm", false⟩],
              engine := fun _ => EngineOutcome.success }).1
           = some (WebMToMP4Converter.convertAll defaultConverter
               { probeOk := true, mkdirResult := fun _ => Except.error "EACCES",
                 listing := Except.ok [⟨"clip.webm", false⟩],
                 engine := fun _ => EngineOutcome.success }).1
       ∧ Event.readdir defaultConverter.inputDir ∈ (WebMToMP4Converter.run defaultConverter
            { probeOk := true, mkdirResult := fun _ => Except.error "EACCES",
              listing := Except.ok [⟨"clip.webm", false⟩],
              engine := fun _ => EngineOutcome.success }).2) :=
  ⟨rfl, rfl, run_continues_after_mkdir_failure defaultConverter _ "EACCES" rfl rfl⟩

/-- **C8, counterexample.** A listing entry that is a directory but whose
name carries a recognized extension is *not* excluded: `getInputFiles` on a
listing holding only the directory `"clips.webm"` returns that name. -/
theorem getInputFiles_directory_not_excluded :
    (⟨"clips.webm", true⟩ : DirEntry).isDir = true
    ∧ WebMToMP4Converter.getInputFilesList defaultConverter
        (Except.ok [⟨"clips.webm", true⟩]) = ["clips.webm"] := by
  exact ⟨rfl, rfl⟩

/-- **C8, amended.** `getInputFiles` filters on the entry's name alone and
never consults whether the entry is a directory: any entry whose name has a
recognized extension is kept — directory or not — and only entries without
one are excluded. -/
theorem getInputFiles_filters_on_name_only (name : String) (d1 d2 : Bool)
    (h : recognizedExtSpec name = true) :
    WebMToMP4Converter.getInputFilesList defaultConverter (Except.ok [⟨name, d1⟩])
      = [name]
    ∧ WebMToMP4Converter.getInputFilesList defaultConverter (Except.ok [⟨name, d1⟩])
      = WebMToMP4Converter.getInputFilesList defaultConverter (Except.ok [⟨name, d2⟩]) := by
  have h' : defaultConverter.supportedFormats.contains (toLowerStr (extname name)) = true := h
  have h'' : toLowerStr (extname name) ∈ defaultConverter.supportedFormats := by
    simpa using h'
  constructor
  · simp [WebMToMP4Converter.getInputFilesList, List.filter_cons, h'']
  · rfl

/-- Witness for the amended C8 at the directory entry `"clips.webm"`. -/
theorem getInputFiles_filters_on_name_only_witness :
    recognizedExtSpec "clips.webm" = true
    ∧ (WebMToMP4Converter.getInputFilesList defaultConverter
         (Except.ok [⟨"clips.webm", true⟩]) = ["clips.webm"]
       ∧ WebMToMP4Converter.getInputFilesList defaultConverter
           (Except.ok [⟨"clips.webm", true⟩])
         = WebMToMP4Converter.getInputFilesList defaultConverter
             (Except.ok [⟨"clips.webm", false⟩])) :=
  ⟨by decide, getInputFiles_filters_on_name_only "clips.webm" true false (by decide)⟩
